import Mathlib

/-
Verification of the betty privacy-inference and date-reasoning engine.

The Date / DateRange model, their comparison, containment and formatting
operations are embedded from betty/locale.py.  Python exceptions are
modelled with an explicit error type and the Except monad; a dunder
comparison method returning NotImplemented is modelled as the value
(Except.ok none), the tri-state "not orderable" outcome.

The privacy-inference pass (betty/privatizer.py) is not part of the
source tree here (only its test suite is), so it is modelled from the
specification, section 4.3; those definitions carry doc comments starting
with "Modelled from the spec:".
-/

namespace Betty

/-- Python exception kinds relevant to the embedded code.  IncompleteDateError
is a distinct constructor because format_datey catches exactly that kind. -/
inductive Err where
  | valueError (msg : String)
  | typeError (msg : String)
  | incompleteDate (msg : String)
  | fuelOut
  deriving DecidableEq, Repr

/-- betty.locale.Date: optional year, month and day (Python ints), plus the
fuzzy flag. -/
structure Date where
  year : Option Int
  month : Option Int
  day : Option Int
  fuzzy : Bool := false
  deriving DecidableEq, Repr

/-- Date.comparable: a date is comparable iff its year is set. -/
def Date.comparable (d : Date) : Bool := d.year.isSome

/-- Date.complete: all three of year, month and day are set. -/
def Date.complete (d : Date) : Bool := d.year.isSome && d.month.isSome && d.day.isSome

/-- Date.parts: the (year, month, day) triple. -/
def Date.parts (d : Date) : Option Int × Option Int × Option Int := (d.year, d.month, d.day)

/-- betty.locale.DateRange: optional start and end dates and a boundary flag
for each side. -/
structure DateRange where
  start : Option Date
  «end» : Option Date
  start_is_boundary : Bool := false
  end_is_boundary : Bool := false
  deriving DecidableEq, Repr

/-- DateRange.comparable: start is set and comparable, or end is set and
comparable. -/
def DateRange.comparable (r : DateRange) : Bool :=
  (match r.start with | some d => d.comparable | none => false)
  || (match r.«end» with | some d => d.comparable | none => false)

/-- Datey = Union[Date, DateRange]. -/
inductive Datey where
  | date (d : Date)
  | range (r : DateRange)
  deriving DecidableEq, Repr

/-- calendar.isleap. -/
def isleap (year : Int) : Bool :=
  year % 4 == 0 && (year % 100 != 0 || year % 400 == 0)

/-- calendar.monthrange(year, month)[1]: the number of days in the month.
Raises IllegalMonthError (a ValueError subclass) for a month outside 1..12,
exactly like the Python standard library. -/
def monthrange1 (year month : Int) : Except Err Int :=
  if month < 1 || 12 < month then
    .error (.valueError "Illegal month")
  else if month == 2 then
    .ok (if isleap year then 29 else 28)
  else if month == 4 || month == 6 || month == 9 || month == 11 then
    .ok 30
  else
    .ok 31

/-- Date.to_range: widen an incomplete date to the DateRange covering its unknown
granularity.  Raises ValueError on a non-comparable date; also propagates
IllegalMonthError from calendar.monthrange when the day is unset and the
month is set but invalid. -/
def Date.to_range (d : Date) : Except Err DateRange :=
  match d.year with
  | none => .error (.valueError "Cannot convert non-comparable date to a date range.")
  | some y =>
    let ms : Int := match d.month with | none => 1 | some m => m
    let me : Int := match d.month with | none => 12 | some m => m
    match d.day with
    | none => do
      let de ← monthrange1 y me
      .ok ⟨some ⟨some y, some ms, some 1, false⟩, some ⟨some y, some me, some de, false⟩, false, false⟩
    | some dd =>
      .ok ⟨some ⟨some y, some ms, some dd, false⟩, some ⟨some y, some me, some dd, false⟩, false, false⟩

/-- The four Python ordering operators. -/
inductive CmpOp where
  | lt | le | gt | ge
  deriving DecidableEq, Repr

/-- The reflected operator Python tries when the left operand's dunder method
returns NotImplemented. -/
def CmpOp.reflect : CmpOp → CmpOp
  | .lt => .gt
  | .gt => .lt
  | .le => .ge
  | .ge => .le

/-- The integer triple of a complete date; only used under a completeness
guard, so the default values are never observed. -/
def triple (d : Date) : Int × Int × Int := (d.year.getD 0, d.month.getD 0, d.day.getD 0)

/-- Strict lexicographic order on integer triples, Python tuple comparison. -/
def lexLt (p q : Int × Int × Int) : Bool :=
  p.1 < q.1 || (p.1 == q.1 && (p.2.1 < q.2.1 || (p.2.1 == q.2.1 && p.2.2 < q.2.2)))

/-- Non-strict lexicographic order on integer triples. -/
def lexLe (p q : Int × Int × Int) : Bool :=
  lexLt p q || p == q

/-- Python tuple comparison for each operator, on complete date triples. -/
def applyOp (op : CmpOp) (p q : Int × Int × Int) : Bool :=
  match op with
  | .lt => lexLt p q
  | .le => lexLe p q
  | .gt => lexLt q p
  | .ge => lexLe q p

/-- Date.__eq__: structural on the (year, month, day) parts only; the fuzzy
flag does not participate. -/
def pyDateEq (a b : Date) : Bool := a.parts == b.parts

/-- Equality of optional dates as Python evaluates it on attribute slots:
None equals None, a Date never equals None. -/
def pyOptDateEq : Option Date → Option Date → Bool
  | none, none => true
  | some a, some b => pyDateEq a b
  | _, _ => false

/-- DateRange.__eq__ against another DateRange: structural on
(start, end, start_is_boundary, end_is_boundary). -/
def pyRangeEq (r o : DateRange) : Bool :=
  pyOptDateEq r.start o.start && pyOptDateEq r.«end» o.«end»
    && r.start_is_boundary == o.start_is_boundary
    && r.end_is_boundary == o.end_is_boundary

/-- Python == on Datey values: DateRange.__eq__ returns False against a Date,
and Date.__eq__ returns NotImplemented against a DateRange, which Python
resolves to False for distinct objects. -/
def pyDateyEq : Datey → Datey → Bool
  | .date a, .date b => pyDateEq a b
  | .range r, .range o => pyRangeEq r o
  | _, _ => false

/-- The idiom x is not None and x.comparable, on an optional date slot. -/
def optComparable : Option Date → Bool
  | some d => d.comparable
  | none => false

/-- Datey comparability, dispatching on the variant. -/
def Datey.comparable : Datey → Bool
  | .date d => d.comparable
  | .range r => r.comparable

/-- A pending call in the mutually recursive comparison code of
betty/locale.py.  The recursion runs on explicit fuel so every definition is
structurally recursive and kernel-computable; widening always produces
complete-bounded ranges, so call chains bottom out after one round and the
fixed fuel below is never exhausted on any input. -/
inductive Call where
  /-- Date._compare(self, other, comparator), the body of the four Date
  ordering dunder methods. -/
  | dateCmp (op : CmpOp) (a : Date) (y : Datey)
  /-- DateRange.__lt__. -/
  | rangeLt (r : DateRange) (y : Datey)
  /-- A DateRange ordering dunder method: __lt__ itself, or __le__, __gt__,
  __ge__ as functools.total_ordering derives them from __lt__ and __eq__. -/
  | rangeDunder (op : CmpOp) (r : DateRange) (y : Datey)
  /-- The Python operator x op y: the dunder on x, then the reflected dunder
  on y, then TypeError. -/
  | binOp (op : CmpOp) (x y : Datey)
  /-- An operator applied to attribute slots that may hold None; Python
  raises TypeError when an operand is None. -/
  | binOpOpt (op : CmpOp) (x y : Option Date)
  /-- DateRange.__contains__. -/
  | contains (r : DateRange) (y : Datey)
  /-- The loop: for x in xs, if lo <= x <= hi then return True. -/
  | anyBetween (lo hi : Option Date) (xs : List Date)
  /-- The loop: for x in xs, if lo op x then return True. -/
  | anyOpLeft (op : CmpOp) (lo : Option Date) (xs : List Date)
  /-- The loop: for x in xs, if x op hi then return True. -/
  | anyOpRight (op : CmpOp) (xs : List Date) (hi : Option Date)

/-- Which dunder method the operator machinery invokes on a given operand. -/
def dunderCall (op : CmpOp) (x y : Datey) : Call :=
  match x with
  | .date a => .dateCmp op a y
  | .range r => .rangeDunder op r y

/-- The comparison interpreter.  The result (Except.ok none) models a dunder
method returning NotImplemented, Python's defined "not orderable" signal;
(Except.error e) models a raised exception. -/
def run : Nat → Call → Except Err (Option Bool)
  | 0, _ => .error .fuelOut
  | n+1, c =>
    match c with
    | .dateCmp op a y =>
      match y with
      | .range _ => .ok none
      | .date b =>
        if !a.comparable || !b.comparable then .ok none
        else if a.complete && b.complete then
          .ok (some (applyOp op (triple a) (triple b)))
        else do
          let y' ← if b.complete then pure (Datey.date b) else (Date.to_range b).map Datey.range
          let x' ← if a.complete then pure (Datey.date a) else (Date.to_range a).map Datey.range
          run n (.binOp op x' y')
    | .rangeDunder op r y =>
      match op with
      | .lt => run n (.rangeLt r y)
      | .le => do
        match ← run n (.rangeLt r y) with
        | none => pure none
        | some b => pure (some (b || pyDateyEq (.range r) y))
      | .gt => do
        match ← run n (.rangeLt r y) with
        | none => pure none
        | some b => pure (some (!b && !(pyDateyEq (.range r) y)))
      | .ge => do
        match ← run n (.rangeLt r y) with
        | none => pure none
        | some b => pure (some (!b))
    | .rangeLt r y =>
      if !r.comparable || !y.comparable then .ok none
      else
        let self_has_start := optComparable r.start
        let self_has_end := optComparable r.«end»
        match y with
        | .range o =>
          let other_has_start := optComparable o.start
          let other_has_end := optComparable o.«end»
          if self_has_start && other_has_start then
            if pyOptDateEq r.start o.start then
              -- transcribed as in the source: the second conjunct tests
              -- other.end.comparable without negation
              if !self_has_end && (match o.«end» with | none => true | some e => e.comparable) then
                .ok (some false)
              else if self_has_end && other_has_end then
                run n (.binOpOpt .lt r.«end» o.«end»)
              else
                .ok (some o.«end».isNone)
            else
              run n (.binOpOpt .lt r.start o.start)
          else if self_has_start then
            run n (.binOpOpt .lt r.start o.«end»)
          else if other_has_start then
            run n (.binOpOpt .le r.«end» o.start)
          else
            run n (.binOpOpt .lt r.«end» o.«end»)
        | .date d =>
          if self_has_start then
            run n (.binOpOpt .lt r.start (some d))
          else if self_has_end then
            run n (.binOpOpt .le r.«end» (some d))
          else
            -- unreachable: the comparability guard above ensures one
            -- comparable bound exists
            .error (.typeError "unreachable")
    | .binOp op x y => do
      match ← run n (dunderCall op x y) with
      | some b => pure (some b)
      | none =>
        match ← run n (dunderCall op.reflect y x) with
        | some b => pure (some b)
        | none => Except.error (.typeError "unorderable operand types")
    | .binOpOpt op x y =>
      match x, y with
      | some a, some b => run n (.binOp op (.date a) (.date b))
      | _, _ => .error (.typeError "comparison with None")
    | .contains r y =>
      if !r.comparable then .ok (some false)
      else
        match y with
        | .date d =>
          if r.start.isSome && r.«end».isSome then
            run n (.anyBetween r.start r.«end» [d])
          else if r.start.isSome then
            run n (.anyOpLeft .le r.start [d])
          else if r.«end».isSome then
            run n (.anyOpRight .le [d] r.«end»)
          else .ok (some false)
        | .range o =>
          if !o.comparable then .ok (some false)
          else
            let others :=
              (match o.start with | some s => if s.comparable then [s] else [] | none => [])
              ++ (match o.«end» with | some e => if e.comparable then [e] else [] | none => [])
            if r.start.isSome && r.«end».isSome then
              if o.start.isNone || o.«end».isNone then
                if o.start.isNone then do
                  match ← run n (.binOpOpt .le r.start o.«end») with
                  | some true => pure (some true)
                  | some false => run n (.binOpOpt .le r.«end» o.«end»)
                  | none => pure none
                else do
                  match ← run n (.binOpOpt .ge r.start o.start) with
                  | some true => pure (some true)
                  | some false => run n (.binOpOpt .ge r.«end» o.start)
                  | none => pure none
              else do
                match ← run n (.anyBetween r.start r.«end» others) with
                | some true => pure (some true)
                | _ =>
                  run n (.anyBetween o.start o.«end»
                    ((match r.start with | some s => [s] | none => [])
                      ++ (match r.«end» with | some e => [e] | none => [])))
            else if r.start.isSome then
              if o.«end».isNone then .ok (some true)
              else run n (.anyOpLeft .le r.start others)
            else if r.«end».isSome then
              if o.start.isNone then .ok (some true)
              else run n (.anyOpRight .le others r.«end»)
            else .ok (some false)
    | .anyBetween lo hi xs =>
      match xs with
      | [] => .ok (some false)
      | x :: rest => do
        match ← run n (.binOpOpt .le lo (some x)) with
        | some true =>
          match ← run n (.binOpOpt .le (some x) hi) with
          | some true => pure (some true)
          | _ => run n (.anyBetween lo hi rest)
        | _ => run n (.anyBetween lo hi rest)
    | .anyOpLeft op lo xs =>
      match xs with
      | [] => .ok (some false)
      | x :: rest => do
        match ← run n (.binOpOpt op lo (some x)) with
        | some true => pure (some true)
        | _ => run n (.anyOpLeft op lo rest)
    | .anyOpRight op xs hi =>
      match xs with
      | [] => .ok (some false)
      | x :: rest => do
        match ← run n (.binOpOpt op (some x) hi) with
        | some true => pure (some true)
        | _ => run n (.anyOpRight op rest hi)

/-- Fuel ample for every possible call chain: widening bottoms out at
complete-bounded ranges after one round, so no chain is deeper than ten. -/
def pyFuel : Nat := 64

/-- A Datey ordering dunder method, as the comparison tables describe. -/
def pyDunderCmp (op : CmpOp) (x y : Datey) : Except Err (Option Bool) :=
  run pyFuel (dunderCall op x y)

/-- The Python comparison operator x op y on Datey values. -/
def pyCmp (op : CmpOp) (x y : Datey) : Except Err (Option Bool) :=
  run pyFuel (.binOp op x y)

/-- The Python membership test x in r for a DateRange receiver; the operator
coerces the dunder result to a boolean. -/
def pyContains (r : DateRange) (y : Datey) : Except Err Bool :=
  match run pyFuel (.contains r y) with
  | .ok (some b) => .ok b
  | .ok none => .ok false
  | .error e => .error e

/-- The presence-pattern table _FORMAT_DATE_PARTS_FORMATTERS: which
(year set, month set, day set) patterns are renderable, and the pattern
string each yields.  Patterns absent here make _format_date_parts raise
IncompleteDateError. -/
def formatDatePartsPattern : Bool × Bool × Bool → Option String
  | (true, true, true) => some "MMMM d, y"
  | (true, true, false) => some "MMMM, y"
  | (true, false, false) => some "y"
  | (false, true, true) => some "MMMM d"
  | (false, true, false) => some "MMMM"
  | _ => none

/-- The number of days in a valid month; 0 for an invalid month (never used
on that side because validity is checked first). -/
def daysInMonth (y m : Int) : Int :=
  match monthrange1 y m with
  | .ok k => k
  | .error _ => 0

/-- datetime.date(year, month, day) argument validation: MINYEAR = 1,
MAXYEAR = 9999, month 1..12, day within the month. -/
def pyDatetimeDateOk (y m d : Int) : Bool :=
  1 ≤ y && y ≤ 9999 && 1 ≤ m && m ≤ 12 && 1 ≤ d && d ≤ daysInMonth y m

/-- betty.locale._format_date_parts.  The external collaborator
babel.dates.format_date is passed in as fmt (taking the proleptic date
parts, the pattern string and the locale); gettext translation is the
identity, as under NullTranslations. -/
def format_date_parts (fmt : Int → Int → Int → String → String → String)
    (locale : String) (date : Option Date) : Except Err String :=
  match date with
  | none => .error (.incompleteDate "This date is None.")
  | some d =>
    match formatDatePartsPattern (d.year.isSome, d.month.isSome, d.day.isSome) with
    | none => .error (.incompleteDate "This date does not have enough parts to be rendered.")
    | some pat =>
      let y := d.year.getD 1
      let m := d.month.getD 1
      let dd := d.day.getD 1
      if pyDatetimeDateOk y m dd then .ok (fmt y m dd pat locale)
      else .error (.valueError "datetime.date argument out of range")

/-- Interpolation of one %(key)s placeholder, the percent-dict formatting of
the phrase templates. -/
def interp (tmpl key val : String) : String :=
  tmpl.replace ("%(" ++ key ++ ")s") val

/-- betty.locale.format_date: the fuzzy-keyed phrase wrapped around the
rendered parts. -/
def format_date (fmt : Int → Int → Int → String → String → String)
    (locale : String) (d : Date) : Except Err String := do
  let s ← format_date_parts fmt locale (some d)
  .ok (interp (if d.fuzzy then "around %(date)s" else "%(date)s") "date" s)

/-- The _FORMAT_DATE_RANGE_FORMATTERS table, keyed by the (fuzzy, boundary)
pair of each renderable side; a side that failed to render contributes
none.  The (none, none) key is absent from the Python table as well:
format_date_range raises before looking it up. -/
def formatDateRangeTemplate : Option (Bool × Bool) → Option (Bool × Bool) → Option String
  | some (false, false), some (false, false) => some "from %(start_date)s until %(end_date)s"
  | some (false, false), some (false, true) => some "from %(start_date)s until sometime before %(end_date)s"
  | some (false, false), some (true, false) => some "from %(start_date)s until around %(end_date)s"
  | some (false, false), some (true, true) => some "from %(start_date)s until sometime before around %(end_date)s"
  | some (false, true), some (false, false) => some "from sometime after %(start_date)s until %(end_date)s"
  | some (false, true), some (false, true) => some "sometime between %(start_date)s and %(end_date)s"
  | some (false, true), some (true, false) => some "from sometime after %(start_date)s until around %(end_date)s"
  | some (false, true), some (true, true) => some "sometime between %(start_date)s and around %(end_date)s"
  | some (true, false), some (false, false) => some "from around %(start_date)s until %(end_date)s"
  | some (true, false), some (false, true) => some "from around %(start_date)s until sometime before %(end_date)s"
  | some (true, false), some (true, false) => some "from around %(start_date)s until around %(end_date)s"
  | some (true, false), some (true, true) => some "from around %(start_date)s until sometime before around %(end_date)s"
  | some (true, true), some (false, false) => some "from sometime after around %(start_date)s until %(end_date)s"
  | some (true, true), some (false, true) => some "sometime between around %(start_date)s and %(end_date)s"
  | some (true, true), some (true, false) => some "from sometime after around %(start_date)s until around %(end_date)s"
  | some (true, true), some (true, true) => some "sometime between around %(start_date)s and around %(end_date)s"
  | some (false, false), none => some "from %(start_date)s"
  | some (false, true), none => some "sometime after %(start_date)s"
  | some (true, false), none => some "from around %(start_date)s"
  | some (true, true), none => some "sometime after around %(start_date)s"
  | none, some (false, false) => some "until %(end_date)s"
  | none, some (false, true) => some "sometime before %(end_date)s"
  | none, some (true, false) => some "until around %(end_date)s"
  | none, some (true, true) => some "sometime before around %(end_date)s"
  | none, none => none

/-- betty.locale.format_date_range: render each side, catching only
IncompleteDateError per side; when both sides fail, raise
IncompleteDateError to the caller.  Non-incomplete errors (ValueError from
datetime.date) propagate immediately, the start side being evaluated
first. -/
def format_date_range (fmt : Int → Int → Int → String → String → String)
    (locale : String) (r : DateRange) : Except Err String :=
  match format_date_parts fmt locale r.start with
  | .error (.incompleteDate _) =>
    match format_date_parts fmt locale r.«end» with
    | .error (.incompleteDate _) =>
      .error (.incompleteDate "This date range does not have enough parts to be rendered.")
    | .error e => .error e
    | .ok ed =>
      -- the end date rendered, so it is present
      let ef := match r.«end» with | some d => d.fuzzy | none => false
      match formatDateRangeTemplate none (some (ef, r.end_is_boundary)) with
      | some tmpl => .ok (interp tmpl "end_date" ed)
      | none => .error (.valueError "KeyError")
  | .error e => .error e
  | .ok sd =>
    let sf := match r.start with | some d => d.fuzzy | none => false
    let k1 := some (sf, r.start_is_boundary)
    match format_date_parts fmt locale r.«end» with
    | .error (.incompleteDate _) =>
      match formatDateRangeTemplate k1 none with
      | some tmpl => .ok (interp tmpl "start_date" sd)
      | none => .error (.valueError "KeyError")
    | .error e => .error e
    | .ok ed =>
      let ef := match r.«end» with | some d => d.fuzzy | none => false
      match formatDateRangeTemplate k1 (some (ef, r.end_is_boundary)) with
      | some tmpl => .ok (interp (interp tmpl "start_date" sd) "end_date" ed)
      | none => .error (.valueError "KeyError")

/-- betty.locale.format_datey: dispatch on the variant and catch exactly
IncompleteDateError, falling back to the fixed placeholder. -/
def format_datey (fmt : Int → Int → Int → String → String → String)
    (locale : String) (x : Datey) : Except Err String :=
  let res := match x with
    | .date d => format_date fmt locale d
    | .range r => format_date_range fmt locale r
  match res with
  | .error (.incompleteDate _) => .ok "unknown date"
  | other => other

/-- Modelled from the spec: the current date against which the privacy
engine measures its living-person age threshold (the privatizer module is
absent from the source tree; only its tests are present). -/
structure Today where
  year : Int
  month : Int
  day : Int
  deriving DecidableEq, Repr

/-- Modelled from the spec: presence roles; only Subject participates in
privacy inference. -/
inductive Role where
  | subject | witness | beneficiary | attendee
  deriving DecidableEq, Repr

/-- Modelled from the spec: event type categories; death stands for the
end-of-life (final disposition) category. -/
inductive EventType where
  | birth | death | marriage
  deriving DecidableEq, Repr

/-- Modelled from the spec: an Event node of the entity graph: a type, an
optional Datey and the ternary privacy flag. -/
structure Event where
  type : EventType
  date : Option Datey
  private_flag : Option Bool
  deriving DecidableEq, Repr

/-- Modelled from the spec: a Presence binds one Person to one Event in a
named role; persons and events are referenced by position in the aggregate
lists of the Ancestry. -/
structure Presence where
  person : Nat
  role : Role
  event : Nat
  deriving DecidableEq, Repr

/-- Modelled from the spec: a Person carries only its privacy flag; its
presences and family links live in the aggregate. -/
structure Person where
  private_flag : Option Bool
  deriving DecidableEq, Repr

/-- Modelled from the spec: a Citation references its Source by position. -/
structure Citation where
  source : Nat
  private_flag : Option Bool
  deriving DecidableEq, Repr

/-- Modelled from the spec: a Source optionally references the Source
containing it. -/
structure Source where
  containedBy : Option Nat
  private_flag : Option Bool
  deriving DecidableEq, Repr

/-- Modelled from the spec: a File is attached to citations, sources and
events, referenced by position. -/
structure File where
  citations : List Nat
  sources : List Nat
  events : List Nat
  private_flag : Option Bool
  deriving DecidableEq, Repr

/-- Modelled from the spec: the Ancestry aggregate owning all entities. -/
structure Ancestry where
  persons : List Person
  events : List Event
  presences : List Presence
  citations : List Citation
  sources : List Source
  files : List File
  deriving DecidableEq, Repr

/-- Map with the element position, used by the per-entity-type passes. -/
def mapEnum (f : Nat → α → α) : Nat → List α → List α
  | _, [] => []
  | i, x :: xs => f i x :: mapEnum f (i + 1) xs

/-- Modelled from the spec: the living-person age threshold of 125 years. -/
def lifetimeThreshold : Int := 125

/-- Modelled from the spec: the current date moved back by a multiple of the
age threshold; multiplier 0 tests an end-of-life event against now itself,
multiplier 1 tests an event against the age threshold. -/
def thresholdDate (t : Today) (mult : Int) : Date :=
  ⟨some (t.year - lifetimeThreshold * mult), some t.month, some t.day, false⟩

/-- Modelled from the spec: a date is definitely past the threshold when it
is comparable and at or before the threshold date; an unordered or failing
comparison is treated as no information (spec section 7). -/
def dateExpired (t : Today) (mult : Int) (d : Date) : Bool :=
  d.comparable &&
    (match pyCmp .le (.date d) (.date (thresholdDate t mult)) with
     | .ok (some b) => b
     | _ => false)

/-- Modelled from the spec: the point/range interpretation of an event date:
a plain date is tested directly, a range on its end boundary (the side that
answers whether the event could still lie in the future), an absent
boundary gives no information. -/
def dateyExpired (t : Today) (mult : Int) : Option Datey → Bool
  | none => false
  | some (.date d) => dateExpired t mult d
  | some (.range r) =>
    match r.«end» with
    | none => false
    | some d => dateExpired t mult d

/-- Modelled from the spec: the (event type, event date) evidence carried by
the Subject-role presences of the person at one position; a presence
referencing a missing event is skipped, per the error-handling rule. -/
def subjectEvidence (a : Ancestry) (i : Nat) : List (EventType × Option Datey) :=
  a.presences.filterMap fun pr =>
    if pr.person == i && pr.role == .subject then
      (a.events.get? pr.event).map fun e => (e.type, e.date)
    else none

/-- Modelled from the spec: the per-person direct-evidence rule of section
4.3: a person is private unless an end-of-life Subject event is undated or
dated at or before the current date, or some Subject event is dated at or
before the 125-year age threshold.  The rule reads only raw event evidence,
never the computed flags of relatives. -/
def personIsPrivate (t : Today) (a : Ancestry) (i : Nat) : Bool :=
  let ev := subjectEvidence a i
  let dead := ev.any fun e => e.1 == .death && (e.2.isNone || dateyExpired t 0 e.2)
  let expired := ev.any fun e => dateyExpired t 1 e.2
  !(dead || expired)

/-- Modelled from the spec: the Person pass; explicitly flagged persons are
left unchanged, only unset flags receive the inferred value. -/
def personPass (t : Today) (a : Ancestry) : Ancestry :=
  { a with persons := mapEnum (fun i p =>
      match p.private_flag with
      | some _ => p
      | none => { p with private_flag := some (personIsPrivate t a i) }) 0 a.persons }

/-- Modelled from the spec: an Event is private iff some Subject-role
participant is private; a presence referencing a missing person is
skipped. -/
def eventIsPrivate (a : Ancestry) (i : Nat) : Bool :=
  a.presences.any fun pr =>
    pr.event == i && pr.role == .subject &&
      (match a.persons.get? pr.person with
       | some p => p.private_flag == some true
       | none => false)

/-- Modelled from the spec: the Event pass. -/
def eventPass (a : Ancestry) : Ancestry :=
  { a with events := mapEnum (fun i e =>
      match e.private_flag with
      | some _ => e
      | none => { e with private_flag := some (eventIsPrivate a i) }) 0 a.events }

/-- Modelled from the spec: a Citation is private iff its Source is private;
a missing source gives no information. -/
def citationIsPrivate (a : Ancestry) (c : Citation) : Bool :=
  match a.sources.get? c.source with
  | some s => s.private_flag == some true
  | none => false

/-- Modelled from the spec: the Citation pass. -/
def citationPass (a : Ancestry) : Ancestry :=
  { a with citations := mapEnum (fun _ c =>
      match c.private_flag with
      | some _ => c
      | none => { c with private_flag := some (citationIsPrivate a c) }) 0 a.citations }

/-- Modelled from the spec: a Source is private iff its containing Source,
when present, is private; never inferred from citations. -/
def containingSourcePrivate (sources : List Source) (s : Source) : Bool :=
  match s.containedBy with
  | none => false
  | some j =>
    match sources.get? j with
    | some c => c.private_flag == some true
    | none => false

/-- Modelled from the spec: the Source pass. -/
def sourcePass (a : Ancestry) : Ancestry :=
  { a with sources := mapEnum (fun _ s =>
      match s.private_flag with
      | some _ => s
      | none => { s with private_flag := some (containingSourcePrivate a.sources s) }) 0 a.sources }

/-- Modelled from the spec: a File is private iff any Citation, Source or
Event it is attached to is private. -/
def fileIsPrivate (a : Ancestry) (f : File) : Bool :=
  (f.citations.any fun j =>
    match a.citations.get? j with
    | some c => c.private_flag == some true
    | none => false)
  || (f.sources.any fun j =>
    match a.sources.get? j with
    | some s => s.private_flag == some true
    | none => false)
  || (f.events.any fun j =>
    match a.events.get? j with
    | some e => e.private_flag == some true
    | none => false)

/-- Modelled from the spec: the File pass. -/
def filePass (a : Ancestry) : Ancestry :=
  { a with files := mapEnum (fun _ f =>
      match f.private_flag with
      | some _ => f
      | none => { f with private_flag := some (fileIsPrivate a f) }) 0 a.files }

/-- Modelled from the spec: privatize(ancestry), the in-place pass with one
unordered sub-pass per entity type, in the order the spec lists them; each
sub-pass reads the state left by the previous one. -/
def privatize (t : Today) (a : Ancestry) : Ancestry :=
  filePass (sourcePass (citationPass (eventPass (personPass t a))))

/-- Replace the privacy flag of the event at one position, leaving every
other field and entity untouched. -/
def setEventFlag (a : Ancestry) (j : Nat) (b : Option Bool) : Ancestry :=
  { a with events := mapEnum (fun i e =>
      if i == j then { e with private_flag := b } else e) 0 a.events }

/-- Replace the privacy flag of the citation at one position, leaving every
other field and entity untouched. -/
def setCitationFlag (a : Ancestry) (k : Nat) (b : Option Bool) : Ancestry :=
  { a with citations := mapEnum (fun i c =>
      if i == k then { c with private_flag := b } else c) 0 a.citations }

/-- The one-person graph of the age-threshold scenario: a person with an
unset flag whose only Subject event is a Birth at the given date. -/
def singleBirthAncestry (bd : Date) : Ancestry :=
  { persons := [⟨none⟩],
    events := [⟨.birth, some (.date bd), none⟩],
    presences := [⟨0, .subject, 0⟩],
    citations := [], sources := [], files := [] }

/-! ### List infrastructure lemmas -/

theorem mapEnum_get? (f : Nat → α → α) (n : Nat) (l : List α) (i : Nat) :
    (mapEnum f n l).get? i = (l.get? i).map (f (n + i)) := by
  induction l generalizing n i with
  | nil => simp [mapEnum]
  | cons x xs ih =>
    cases i with
    | zero => simp [mapEnum]
    | succ j =>
      simp only [mapEnum, List.get?]
      have harith : n + 1 + j = n + (j + 1) := by omega
      rw [ih, harith]

theorem mapEnum_forall {P : α → Prop} (f : Nat → α → α) (h : ∀ i x, P (f i x)) :
    ∀ n l, ∀ x ∈ mapEnum f n l, P x := by
  intro n l
  induction l generalizing n with
  | nil => intro x hx; simp [mapEnum] at hx
  | cons y ys ih =>
    intro x hx
    simp only [mapEnum, List.mem_cons] at hx
    rcases hx with hx | hx
    · exact hx ▸ h n y
    · exact ih (n + 1) x hx

theorem mapEnum_id (f : Nat → α → α) (l : List α) (h : ∀ i x, x ∈ l → f i x = x) :
    ∀ n, mapEnum f n l = l := by
  induction l with
  | nil => intro n; simp [mapEnum]
  | cons y ys ih =>
    intro n
    simp only [mapEnum]
    rw [h n y (List.mem_cons_self y ys), ih (fun i x hx => h i x (List.mem_cons_of_mem y hx)) (n + 1)]

theorem mapEnum_congr (f g : Nat → α → α) (h : ∀ i x, f i x = g i x) :
    ∀ n l, mapEnum f n l = mapEnum g n l := by
  intro n l
  induction l generalizing n with
  | nil => simp [mapEnum]
  | cons y ys ih => simp only [mapEnum]; rw [h n y, ih (n + 1)]

/-! ### Field-preservation facts about the passes -/

@[simp] theorem personPass_events (t : Today) (a : Ancestry) : (personPass t a).events = a.events := rfl
@[simp] theorem personPass_presences (t : Today) (a : Ancestry) : (personPass t a).presences = a.presences := rfl
@[simp] theorem personPass_citations (t : Today) (a : Ancestry) : (personPass t a).citations = a.citations := rfl
@[simp] theorem personPass_sources (t : Today) (a : Ancestry) : (personPass t a).sources = a.sources := rfl
@[simp] theorem personPass_files (t : Today) (a : Ancestry) : (personPass t a).files = a.files := rfl
@[simp] theorem eventPass_persons (a : Ancestry) : (eventPass a).persons = a.persons := rfl
@[simp] theorem eventPass_presences (a : Ancestry) : (eventPass a).presences = a.presences := rfl
@[simp] theorem eventPass_citations (a : Ancestry) : (eventPass a).citations = a.citations := rfl
@[simp] theorem eventPass_sources (a : Ancestry) : (eventPass a).sources = a.sources := rfl
@[simp] theorem eventPass_files (a : Ancestry) : (eventPass a).files = a.files := rfl
@[simp] theorem citationPass_persons (a : Ancestry) : (citationPass a).persons = a.persons := rfl
@[simp] theorem citationPass_events (a : Ancestry) : (citationPass a).events = a.events := rfl
@[simp] theorem citationPass_presences (a : Ancestry) : (citationPass a).presences = a.presences := rfl
@[simp] theorem citationPass_sources (a : Ancestry) : (citationPass a).sources = a.sources := rfl
@[simp] theorem citationPass_files (a : Ancestry) : (citationPass a).files = a.files := rfl
@[simp] theorem sourcePass_persons (a : Ancestry) : (sourcePass a).persons = a.persons := rfl
@[simp] theorem sourcePass_events (a : Ancestry) : (sourcePass a).events = a.events := rfl
@[simp] theorem sourcePass_presences (a : Ancestry) : (sourcePass a).presences = a.presences := rfl
@[simp] theorem sourcePass_citations (a : Ancestry) : (sourcePass a).citations = a.citations := rfl
@[simp] theorem sourcePass_files (a : Ancestry) : (sourcePass a).files = a.files := rfl
@[simp] theorem filePass_persons (a : Ancestry) : (filePass a).persons = a.persons := rfl
@[simp] theorem filePass_events (a : Ancestry) : (filePass a).events = a.events := rfl
@[simp] theorem filePass_presences (a : Ancestry) : (filePass a).presences = a.presences := rfl
@[simp] theorem filePass_citations (a : Ancestry) : (filePass a).citations = a.citations := rfl
@[simp] theorem filePass_sources (a : Ancestry) : (filePass a).sources = a.sources := rfl

/-- After the full pass every person flag is set. -/
theorem privatize_persons_set (t : Today) (a : Ancestry) :
    ∀ p ∈ (privatize t a).persons, p.private_flag.isSome := by
  show ∀ p ∈ (personPass t a).persons, p.private_flag.isSome
  apply mapEnum_forall
  intro i p
  cases hp : p.private_flag <;> simp [hp]

/-- After the full pass every event flag is set. -/
theorem privatize_events_set (t : Today) (a : Ancestry) :
    ∀ e ∈ (privatize t a).events, e.private_flag.isSome := by
  show ∀ e ∈ (eventPass (personPass t a)).events, e.private_flag.isSome
  apply mapEnum_forall
  intro i e
  cases he : e.private_flag <;> simp [he]

/-- After the full pass every citation flag is set. -/
theorem privatize_citations_set (t : Today) (a : Ancestry) :
    ∀ c ∈ (privatize t a).citations, c.private_flag.isSome := by
  show ∀ c ∈ (citationPass (eventPass (personPass t a))).citations, c.private_flag.isSome
  apply mapEnum_forall
  intro i c
  cases hc : c.private_flag <;> simp [hc]

/-- After the full pass every source flag is set. -/
theorem privatize_sources_set (t : Today) (a : Ancestry) :
    ∀ s ∈ (privatize t a).sources, s.private_flag.isSome := by
  show ∀ s ∈ (sourcePass (citationPass (eventPass (personPass t a)))).sources, s.private_flag.isSome
  apply mapEnum_forall
  intro i s
  cases hs : s.private_flag <;> simp [hs]

/-- After the full pass every file flag is set. -/
theorem privatize_files_set (t : Today) (a : Ancestry) :
    ∀ f ∈ (privatize t a).files, f.private_flag.isSome := by
  apply mapEnum_forall
  intro i f
  cases hf : f.private_flag <;> simp [hf]

/-- A pass leaves an ancestry alone once every flag of its own entity type
is set. -/
theorem personPass_of_set (t : Today) (a : Ancestry)
    (h : ∀ p ∈ a.persons, p.private_flag.isSome) : personPass t a = a := by
  have : mapEnum (fun i p =>
      match p.private_flag with
      | some _ => p
      | none => { p with private_flag := some (personIsPrivate t a i) }) 0 a.persons = a.persons := by
    apply mapEnum_id
    intro i p hp
    rcases Option.isSome_iff_exists.mp (h p hp) with ⟨b, hb⟩
    simp [hb]
  unfold personPass
  rw [this]

theorem eventPass_of_set (a : Ancestry)
    (h : ∀ e ∈ a.events, e.private_flag.isSome) : eventPass a = a := by
  have : mapEnum (fun i e =>
      match e.private_flag with
      | some _ => e
      | none => { e with private_flag := some (eventIsPrivate a i) }) 0 a.events = a.events := by
    apply mapEnum_id
    intro i e he
    rcases Option.isSome_iff_exists.mp (h e he) with ⟨b, hb⟩
    simp [hb]
  unfold eventPass
  rw [this]

theorem citationPass_of_set (a : Ancestry)
    (h : ∀ c ∈ a.citations, c.private_flag.isSome) : citationPass a = a := by
  have : mapEnum (fun _ c =>
      match c.private_flag with
      | some _ => c
      | none => { c with private_flag := some (citationIsPrivate a c) }) 0 a.citations = a.citations := by
    apply mapEnum_id
    intro i c hc
    rcases Option.isSome_iff_exists.mp (h c hc) with ⟨b, hb⟩
    simp [hb]
  unfold citationPass
  rw [this]

theorem sourcePass_of_set (a : Ancestry)
    (h : ∀ s ∈ a.sources, s.private_flag.isSome) : sourcePass a = a := by
  have : mapEnum (fun _ s =>
      match s.private_flag with
      | some _ => s
      | none => { s with private_flag := some (containingSourcePrivate a.sources s) }) 0 a.sources = a.sources := by
    apply mapEnum_id
    intro i s hs
    rcases Option.isSome_iff_exists.mp (h s hs) with ⟨b, hb⟩
    simp [hb]
  unfold sourcePass
  rw [this]

theorem filePass_of_set (a : Ancestry)
    (h : ∀ f ∈ a.files, f.private_flag.isSome) : filePass a = a := by
  have : mapEnum (fun _ f =>
      match f.private_flag with
      | some _ => f
      | none => { f with private_flag := some (fileIsPrivate a f) }) 0 a.files = a.files := by
    apply mapEnum_id
    intro i f hf
    rcases Option.isSome_iff_exists.mp (h f hf) with ⟨b, hb⟩
    simp [hb]
  unfold filePass
  rw [this]

/-- C1.  privatize is idempotent: a second run reproduces the first run's
result exactly, in particular on every privacy flag of every privacy-aware
entity.  (The first run sets every unset flag, and explicitly set flags are
never recomputed.) -/
theorem privatize_idempotent (t : Today) (a : Ancestry) :
    privatize t (privatize t a) = privatize t a := by
  have h1 := privatize_persons_set t a
  have h2 := privatize_events_set t a
  have h3 := privatize_citations_set t a
  have h4 := privatize_sources_set t a
  have h5 := privatize_files_set t a
  show filePass (sourcePass (citationPass (eventPass (personPass t (privatize t a))))) = privatize t a
  rw [personPass_of_set t _ h1, eventPass_of_set _ h2, citationPass_of_set _ h3,
    sourcePass_of_set _ h4, filePass_of_set _ h5]

/-! ### Unfolding the full pass one entity type at a time -/

theorem privatize_persons_eq (t : Today) (a : Ancestry) :
    (privatize t a).persons = mapEnum (fun i p =>
      match p.private_flag with
      | some _ => p
      | none => { p with private_flag := some (personIsPrivate t a i) }) 0 a.persons := rfl

theorem privatize_events_eq (t : Today) (a : Ancestry) :
    (privatize t a).events = mapEnum (fun i e =>
      match e.private_flag with
      | some _ => e
      | none => { e with private_flag := some (eventIsPrivate (personPass t a) i) }) 0 a.events := rfl

theorem privatize_citations_eq (t : Today) (a : Ancestry) :
    (privatize t a).citations = mapEnum (fun _ c =>
      match c.private_flag with
      | some _ => c
      | none => { c with private_flag := some (citationIsPrivate (eventPass (personPass t a)) c) }) 0 a.citations := rfl

theorem privatize_sources_eq (t : Today) (a : Ancestry) :
    (privatize t a).sources = mapEnum (fun _ s =>
      match s.private_flag with
      | some _ => s
      | none => { s with private_flag := some (containingSourcePrivate a.sources s) }) 0 a.sources := rfl

theorem privatize_files_eq (t : Today) (a : Ancestry) :
    (privatize t a).files = mapEnum (fun _ f =>
      match f.private_flag with
      | some _ => f
      | none =>
        { f with private_flag := some (fileIsPrivate (sourcePass (citationPass (eventPass (personPass t a)))) f) }) 0 a.files := rfl

/-- C5.  privatize never overwrites an explicitly set privacy flag: a
privacy-aware entity whose flag was already set (to true or to false)
before the pass is returned unchanged at its position; only entities with
an unset flag have a value computed. -/
theorem explicit_flags_preserved (t : Today) (a : Ancestry) :
    (∀ i p b, a.persons.get? i = some p → p.private_flag = some b →
      (privatize t a).persons.get? i = some p)
    ∧ (∀ i e b, a.events.get? i = some e → e.private_flag = some b →
      (privatize t a).events.get? i = some e)
    ∧ (∀ i c b, a.citations.get? i = some c → c.private_flag = some b →
      (privatize t a).citations.get? i = some c)
    ∧ (∀ i s b, a.sources.get? i = some s → s.private_flag = some b →
      (privatize t a).sources.get? i = some s)
    ∧ (∀ i f b, a.files.get? i = some f → f.private_flag = some b →
      (privatize t a).files.get? i = some f) := by
  refine ⟨?_, ?_, ?_, ?_, ?_⟩
  · intro i p b h1 h2
    rw [privatize_persons_eq, mapEnum_get?, h1]
    simp [h2]
  · intro i e b h1 h2
    rw [privatize_events_eq, mapEnum_get?, h1]
    simp [h2]
  · intro i c b h1 h2
    rw [privatize_citations_eq, mapEnum_get?, h1]
    simp [h2]
  · intro i s b h1 h2
    rw [privatize_sources_eq, mapEnum_get?, h1]
    simp [h2]
  · intro i f b h1 h2
    rw [privatize_files_eq, mapEnum_get?, h1]
    simp [h2]

/-- A one-person graph whose person is explicitly public. -/
def onePublicPerson : Ancestry :=
  { persons := [⟨some false⟩], events := [], presences := [], citations := [], sources := [], files := [] }

/-- Witness for C5 at a concrete graph: an explicitly public person
survives the pass untouched. -/
theorem explicit_flags_preserved_witness :
    onePublicPerson.persons.get? 0 = some ⟨some false⟩
    ∧ (privatize ⟨2026, 10, 12⟩ onePublicPerson).persons.get? 0 = some ⟨some false⟩ :=
  ⟨by decide, (explicit_flags_preserved ⟨2026, 10, 12⟩ onePublicPerson).1 0 ⟨some false⟩ false (by decide) (by decide)⟩

theorem filterMap_congr_mem {f g : α → Option β} (l : List α) (h : ∀ x ∈ l, f x = g x) :
    l.filterMap f = l.filterMap g := by
  induction l with
  | nil => rfl
  | cons y ys ih =>
    rw [List.filterMap_cons, List.filterMap_cons, h y (List.mem_cons_self y ys),
      ih fun x hx => h x (List.mem_cons_of_mem y hx)]

theorem setEventFlag_events_get? (a : Ancestry) (j : Nat) (b : Option Bool) (k : Nat) :
    (setEventFlag a j b).events.get? k
      = (a.events.get? k).map (fun e => if k == j then { e with private_flag := b } else e) := by
  show (mapEnum (fun i e => if i == j then { e with private_flag := b } else e) 0 a.events).get? k = _
  rw [mapEnum_get?, Nat.zero_add]

/-- Changing an event privacy flag does not change the raw evidence the
person rule reads. -/
theorem subjectEvidence_setEventFlag (a : Ancestry) (j : Nat) (b : Option Bool) (i : Nat) :
    subjectEvidence (setEventFlag a j b) i = subjectEvidence a i := by
  unfold subjectEvidence
  show a.presences.filterMap _ = a.presences.filterMap _
  apply filterMap_congr_mem
  intro pr _
  by_cases hc : (pr.person == i && pr.role == .subject) = true
  · rw [if_pos hc, if_pos hc, setEventFlag_events_get?, Option.map_map]
    congr 1
    funext e
    simp only [Function.comp_apply]
    by_cases hj : (pr.event == j) = true
    · rw [if_pos hj]
    · rw [if_neg hj]
  · rw [if_neg hc, if_neg hc]

theorem personIsPrivate_setEventFlag (t : Today) (a : Ancestry) (j : Nat) (b : Option Bool) (i : Nat) :
    personIsPrivate t (setEventFlag a j b) i = personIsPrivate t a i := by
  unfold personIsPrivate
  rw [subjectEvidence_setEventFlag]

theorem personPass_persons_get? (t : Today) (a : Ancestry) (k : Nat) :
    (personPass t a).persons.get? k = (a.persons.get? k).map (fun p =>
      match p.private_flag with
      | some _ => p
      | none => { p with private_flag := some (personIsPrivate t a k) }) := by
  show (mapEnum (fun i p =>
      match p.private_flag with
      | some _ => p
      | none => { p with private_flag := some (personIsPrivate t a i) }) 0 a.persons).get? k = _
  rw [mapEnum_get?, Nat.zero_add]

theorem privatize_persons_setEventFlag (t : Today) (a : Ancestry) (j : Nat) (b : Option Bool) :
    (privatize t (setEventFlag a j b)).persons = (privatize t a).persons := by
  rw [privatize_persons_eq, privatize_persons_eq]
  show mapEnum _ 0 a.persons = mapEnum _ 0 a.persons
  apply mapEnum_congr
  intro k p
  cases hp : p.private_flag with
  | some v => simp [hp]
  | none => simp [hp, personIsPrivate_setEventFlag]

/-- C3.  Privacy propagation is directional: an event with an unset flag
that has a Subject-role presence of a private person is set private, while
the person flags computed by the pass are entirely independent of any
event flag, so a private event never privatizes any participant. -/
theorem privacy_directionality (t : Today) (a : Ancestry) (i : Nat) (e : Event) (pr : Presence) (p : Person)
    (h1 : a.events.get? i = some e) (h2 : e.private_flag = none)
    (h3 : pr ∈ a.presences) (h4 : pr.event = i) (h5 : pr.role = .subject)
    (h6 : a.persons.get? pr.person = some p) (h7 : p.private_flag = some true) :
    (privatize t a).events.get? i = some { e with private_flag := some true }
    ∧ ∀ j b, (privatize t (setEventFlag a j b)).persons = (privatize t a).persons := by
  constructor
  · rw [privatize_events_eq, mapEnum_get?, h1]
    have hev : eventIsPrivate (personPass t a) i = true := by
      unfold eventIsPrivate
      rw [personPass_presences, List.any_eq_true]
      refine ⟨pr, h3, ?_⟩
      have hpp : (personPass t a).persons.get? pr.person = some p := by
        rw [personPass_persons_get?, h6]
        simp [h7]
      rw [h4, h5, hpp]
      simp [h7]
    simp [h2, hev]
  · intro j b
    exact privatize_persons_setEventFlag t a j b

/-- The concrete graph of the directionality witness: an explicitly private
person who is Subject of an unflagged marriage event. -/
def subjectGraph : Ancestry :=
  { persons := [⟨some true⟩], events := [⟨.marriage, none, none⟩],
    presences := [⟨0, .subject, 0⟩], citations := [], sources := [], files := [] }

/-- Witness for C3 at a concrete graph. -/
theorem privacy_directionality_witness :
    (privatize ⟨2026, 10, 12⟩ subjectGraph).events.get? 0 = some ⟨.marriage, none, some true⟩
    ∧ ∀ j b, (privatize ⟨2026, 10, 12⟩ (setEventFlag subjectGraph j b)).persons
        = (privatize ⟨2026, 10, 12⟩ subjectGraph).persons :=
  privacy_directionality ⟨2026, 10, 12⟩ subjectGraph 0 ⟨.marriage, none, none⟩ ⟨0, .subject, 0⟩ ⟨some true⟩
    (by decide) (by decide) (by decide) (by decide) (by decide) (by decide) (by decide)

/-- C4.  A source with an unset flag is set private exactly when its
containing source (when present) carries an explicit private flag, and the
source flags computed by the pass are entirely independent of any citation
flag, so source privacy is never inferred from citations. -/
theorem source_privacy_from_container (t : Today) (a : Ancestry) (i : Nat) (s : Source)
    (h1 : a.sources.get? i = some s) (h2 : s.private_flag = none) :
    (privatize t a).sources.get? i
      = some { s with private_flag := some (containingSourcePrivate a.sources s) }
    ∧ ∀ k b, (privatize t (setCitationFlag a k b)).sources = (privatize t a).sources := by
  constructor
  · rw [privatize_sources_eq, mapEnum_get?, h1]
    simp [h2]
  · intro k b
    rfl

/-- The concrete graph of the source witness: source 0 has an unset flag
and is contained in source 1, which is explicitly private. -/
def containedSourceGraph : Ancestry :=
  { persons := [], events := [], presences := [], citations := [],
    sources := [⟨some 1, none⟩, ⟨none, some true⟩], files := [] }

/-- Witness for C4 at a concrete graph. -/
theorem source_privacy_from_container_witness :
    (privatize ⟨2026, 10, 12⟩ containedSourceGraph).sources.get? 0 = some ⟨some 1, some true⟩
    ∧ ∀ k b, (privatize ⟨2026, 10, 12⟩ (setCitationFlag containedSourceGraph k b)).sources
        = (privatize ⟨2026, 10, 12⟩ containedSourceGraph).sources :=
  source_privacy_from_container ⟨2026, 10, 12⟩ containedSourceGraph 0 ⟨some 1, none⟩
    (by decide) (by decide)

deriving instance DecidableEq for Except

/-- The flag privatize computes for the lone person of the age-threshold
scenario: private exactly when the birth date has not expired. -/
theorem singleBirth_flag (t : Today) (bd : Date) :
    (privatize t (singleBirthAncestry bd)).persons = [⟨some (!dateExpired t 1 bd)⟩] := by
  show [Person.mk (some (!(dateExpired t 1 bd || false)))] = _
  rw [Bool.or_false]

/-- C2, counterexample.  The claim states that a person whose only dated
Subject event is a Birth more than 125 years before the current date is
private: at current date 2026-10-12 and birth date 1850-01-01 the engine
computes exactly the opposite, an explicit public flag (the person is
presumed dead), so the claim as stated is false. -/
theorem age_threshold_counterexample :
    (privatize ⟨2026, 10, 12⟩ (singleBirthAncestry ⟨some 1850, some 1, some 1, false⟩)).persons
      = [⟨some false⟩] := by decide

/-- C2, amended.  A person with an unset flag whose only dated Subject
event is a Birth with a complete date at or before the day 125 years
before the current date is not private; dated after that day, the person
is private. -/
theorem age_threshold_amended (t : Today) (bd : Date) (hc : bd.complete = true) :
    (pyCmp .le (.date bd) (.date (thresholdDate t 1)) = .ok (some true) →
      (privatize t (singleBirthAncestry bd)).persons = [⟨some false⟩])
    ∧ (pyCmp .le (.date bd) (.date (thresholdDate t 1)) = .ok (some false) →
      (privatize t (singleBirthAncestry bd)).persons = [⟨some true⟩]) := by
  have hcomp : bd.comparable = true := by
    cases hy : bd.year with
    | none =>
      exfalso
      unfold Date.complete at hc
      rw [hy] at hc
      simp at hc
    | some y =>
      unfold Date.comparable
      rw [hy]
      rfl
  constructor
  · intro hle
    rw [singleBirth_flag]
    have hexp : dateExpired t 1 bd = true := by
      unfold dateExpired
      rw [hcomp, hle]
      rfl
    rw [hexp]
    rfl
  · intro hle
    rw [singleBirth_flag]
    have hexp : dateExpired t 1 bd = false := by
      unfold dateExpired
      rw [hcomp, hle]
      rfl
    rw [hexp]
    rfl

/-- Witness for the amended C2, on both sides of the threshold. -/
theorem age_threshold_amended_witness :
    Date.complete ⟨some 1700, some 5, some 5, false⟩ = true
    ∧ pyCmp .le (.date ⟨some 1700, some 5, some 5, false⟩)
        (.date (thresholdDate ⟨2026, 10, 12⟩ 1)) = .ok (some true)
    ∧ (privatize ⟨2026, 10, 12⟩ (singleBirthAncestry ⟨some 1700, some 5, some 5, false⟩)).persons
        = [⟨some false⟩]
    ∧ (privatize ⟨2026, 10, 12⟩ (singleBirthAncestry ⟨some 2000, some 1, some 1, false⟩)).persons
        = [⟨some true⟩] :=
  ⟨by decide, by decide,
    (age_threshold_amended ⟨2026, 10, 12⟩ ⟨some 1700, some 5, some 5, false⟩ (by decide)).1 (by decide),
    (age_threshold_amended ⟨2026, 10, 12⟩ ⟨some 2000, some 1, some 1, false⟩ (by decide)).2 (by decide)⟩

/-! ### Comparison lemmas at symbolic fuel -/

theorem run_dateCmp_noncomparable (n : Nat) (op : CmpOp) (a : Date) (y : Datey)
    (h : a.comparable = false) : run (n + 1) (.dateCmp op a y) = .ok none := by
  cases y with
  | range r => rfl
  | date b =>
    simp only [run]
    rw [h]
    simp

theorem run_rangeLt_noncomparable (n : Nat) (r : DateRange) (y : Datey)
    (h : r.comparable = false) : run (n + 1) (.rangeLt r y) = .ok none := by
  simp only [run]
  rw [h]
  simp

theorem run_rangeDunder_noncomparable (n : Nat) (op : CmpOp) (r : DateRange) (y : Datey)
    (h : r.comparable = false) : run (n + 2) (.rangeDunder op r y) = .ok none := by
  have hlt := run_rangeLt_noncomparable n r y h
  cases op with
  | lt => exact hlt
  | le =>
    show Bind.bind (run (n + 1) (.rangeLt r y)) _ = _
    rw [hlt]
    rfl
  | gt =>
    show Bind.bind (run (n + 1) (.rangeLt r y)) _ = _
    rw [hlt]
    rfl
  | ge =>
    show Bind.bind (run (n + 1) (.rangeLt r y)) _ = _
    rw [hlt]
    rfl

/-- C6.  For two Datey values of which neither has a usable year, each of
the four ordering dunder methods returns the defined NotImplemented
tri-state outcome (here: Except.ok none), and no exception value is
produced. -/
theorem uncomparable_datey_comparisons (op : CmpOp) (x y : Datey)
    (hx : x.comparable = false) (hy : y.comparable = false) :
    pyDunderCmp op x y = .ok none := by
  cases x with
  | date a => exact run_dateCmp_noncomparable 63 op a y hx
  | range r => exact run_rangeDunder_noncomparable 62 op r y hx

/-- Witness for C6: the empty Date against the empty DateRange. -/
theorem uncomparable_datey_comparisons_witness :
    Datey.comparable (.date ⟨none, none, none, false⟩) = false
    ∧ Datey.comparable (.range ⟨none, none, false, false⟩) = false
    ∧ pyDunderCmp .lt (.date ⟨none, none, none, false⟩) (.range ⟨none, none, false, false⟩)
        = .ok none :=
  ⟨by decide, by decide,
    uncomparable_datey_comparisons .lt (.date ⟨none, none, none, false⟩)
      (.range ⟨none, none, false, false⟩) (by decide) (by decide)⟩

/-- C7.  An incomplete date widens to its covering range for comparison:
Date(1970) widens to the range 1970-01-01 .. 1970-12-31, so
Date(1970) < Date(1971, 1, 1) evaluates to True, while
Date(1970) < Date(1970, 1, 1) evaluates to False. -/
theorem date_widening_ordering :
    Date.to_range ⟨some 1970, none, none, false⟩
      = .ok ⟨some ⟨some 1970, some 1, some 1, false⟩, some ⟨some 1970, some 12, some 31, false⟩, false, false⟩
    ∧ pyCmp .lt (.date ⟨some 1970, none, none, false⟩) (.date ⟨some 1971, some 1, some 1, false⟩)
        = .ok (some true)
    ∧ pyCmp .lt (.date ⟨some 1970, none, none, false⟩) (.date ⟨some 1970, some 1, some 1, false⟩)
        = .ok (some false) := by
  refine ⟨by decide, by decide, by decide⟩

/-- C9.  Incomplete-date failures are a distinct error kind: formatting a
single Date through format_datey catches them and falls back to the fixed
placeholder string, while format_date_range, when neither boundary is
renderable, raises the incomplete-date error to its caller instead of
swallowing it. -/
theorem incomplete_date_error_handling :
    (∀ (fmt : Int → Int → Int → String → String → String) (locale : String) (d : Date) (m : String),
      format_date fmt locale d = .error (.incompleteDate m) →
      format_datey fmt locale (.date d) = .ok "unknown date")
    ∧ (∀ (fmt : Int → Int → Int → String → String → String) (locale : String) (r : DateRange)
        (m1 m2 : String),
      format_date_parts fmt locale r.start = .error (.incompleteDate m1) →
      format_date_parts fmt locale r.«end» = .error (.incompleteDate m2) →
      format_date_range fmt locale r
        = .error (.incompleteDate "This date range does not have enough parts to be rendered.")) := by
  constructor
  · intro fmt locale d m h
    show (match format_date fmt locale d with
      | Except.error (Err.incompleteDate _) => Except.ok "unknown date"
      | other => other) = Except.ok "unknown date"
    rw [h]
  · intro fmt locale r m1 m2 h1 h2
    unfold format_date_range
    rw [h1, h2]

/-- Witness for C9: the empty date and the empty range. -/
theorem incomplete_date_error_handling_witness :
    format_date (fun _ _ _ _ _ => "") "en" ⟨none, none, none, false⟩
        = .error (.incompleteDate "This date does not have enough parts to be rendered.")
    ∧ format_datey (fun _ _ _ _ _ => "") "en" (.date ⟨none, none, none, false⟩) = .ok "unknown date"
    ∧ format_date_range (fun _ _ _ _ _ => "") "en" ⟨none, none, false, false⟩
        = .error (.incompleteDate "This date range does not have enough parts to be rendered.") :=
  ⟨rfl,
    incomplete_date_error_handling.1 (fun _ _ _ _ _ => "") "en" ⟨none, none, none, false⟩
      "This date does not have enough parts to be rendered." rfl,
    incomplete_date_error_handling.2 (fun _ _ _ _ _ => "") "en" ⟨none, none, false, false⟩
      "This date is None." "This date is None." rfl rfl⟩

/-- Whether widening fails. -/
def toRangeFails (d : Date) : Bool :=
  match d.to_range with
  | .error _ => true
  | .ok _ => false

/-- An explicitly set month outside 1..12, the input on which
calendar.monthrange raises when asked for the last day. -/
def badMonth (d : Date) : Bool :=
  match d.month with
  | some m => decide (m < 1) || decide (12 < m)
  | none => false

/-- C10, counterexample.  Date(2000, 13) is comparable (it has a year), yet
to_range raises the IllegalMonthError ValueError; and for Date(2000, None,
15) the returned end day is the explicit day 15, not the last day of
December: both the "raises exactly when no year" and the "end day is the
last day of the end month" clauses fail as stated. -/
theorem to_range_counterexample :
    Date.comparable ⟨some 2000, some 13, none, false⟩ = true
    ∧ Date.to_range ⟨some 2000, some 13, none, false⟩ = .error (.valueError "Illegal month")
    ∧ Date.to_range ⟨some 2000, none, some 15, false⟩
        = .ok ⟨some ⟨some 2000, some 1, some 15, false⟩, some ⟨some 2000, some 12, some 15, false⟩, false, false⟩ :=
  ⟨rfl, rfl, rfl⟩

theorem monthrange1_invalid (y m : Int) (h : m < 1 ∨ 12 < m) :
    monthrange1 y m = .error (.valueError "Illegal month") := by
  unfold monthrange1
  rw [if_pos]
  simpa using h

theorem monthrange1_valid (y m : Int) (h : ¬(m < 1 ∨ 12 < m)) :
    ∃ k, monthrange1 y m = .ok k := by
  unfold monthrange1
  rw [if_neg (by simpa using h)]
  split
  · exact ⟨_, rfl⟩
  · split
    · exact ⟨_, rfl⟩
    · exact ⟨_, rfl⟩

/-- C10, amended.  to_range raises a ValueError exactly when the date has
no year, or when its day is unset and its month is explicitly set to a
value outside 1..12; on success the returned range has complete start and
end dates in the date's own year, the start taking the explicit month/day
or 1, the end taking the explicit month or 12, and the end day being the
last day of the end month (leap years accounted for, via
calendar.monthrange) when the day is unset, or the explicit day
otherwise. -/
theorem to_range_amended (d : Date) :
    toRangeFails d = (d.year.isNone || (d.day.isNone && badMonth d))
    ∧ (∀ r, d.to_range = .ok r →
        ∃ y, d.year = some y
          ∧ r.start = some ⟨some y, some (d.month.getD 1), some (d.day.getD 1), false⟩
          ∧ ∃ de, r.«end» = some ⟨some y, some (d.month.getD 12), some de, false⟩
            ∧ (d.day = none → monthrange1 y (d.month.getD 12) = .ok de)
            ∧ (∀ dd, d.day = some dd → de = dd)) := by
  cases hy : d.year with
  | none =>
    constructor
    · simp [toRangeFails, Date.to_range, hy]
    · intro r hr
      unfold Date.to_range at hr
      rw [hy] at hr
      exact absurd hr (by simp)
  | some y =>
    cases hd : d.day with
    | none =>
      cases hm : d.month with
      | none =>
        constructor
        · simp only [Option.isNone_some, Option.isNone_none, Bool.false_or, Bool.true_and]
          have hbadf : badMonth d = false := by unfold badMonth; rw [hm]
          rw [hbadf]
          unfold toRangeFails Date.to_range
          rw [hy, hd, hm]
          rfl
        · intro r hr
          unfold Date.to_range at hr
          rw [hy, hd, hm] at hr
          have h31 : monthrange1 y 12 = .ok 31 := rfl
          simp only [h31, Bind.bind, Except.bind] at hr
          cases hr
          exact ⟨y, rfl, rfl, 31, rfl, fun _ => h31, fun dd hdd => nomatch hdd⟩
      | some m =>
        by_cases hv : m < 1 ∨ 12 < m
        · have hme := monthrange1_invalid y m hv
          constructor
          · simp only [Option.isNone_some, Option.isNone_none, Bool.false_or, Bool.true_and]
            have hbad : badMonth d = true := by
              unfold badMonth
              rw [hm]
              rcases hv with h | h <;> simp [h]
            rw [hbad]
            unfold toRangeFails Date.to_range
            rw [hy, hd, hm]
            simp [hme, Bind.bind, Except.bind]
          · intro r hr
            unfold Date.to_range at hr
            rw [hy, hd, hm] at hr
            simp only [hme, Bind.bind, Except.bind] at hr
            simp at hr
        · obtain ⟨k, hk⟩ := monthrange1_valid y m hv
          have h1 : ¬(m < 1) := fun h => hv (Or.inl h)
          have h2 : ¬(12 < m) := fun h => hv (Or.inr h)
          constructor
          · simp only [Option.isNone_some, Option.isNone_none, Bool.false_or, Bool.true_and]
            have hbad : badMonth d = false := by
              unfold badMonth
              rw [hm]
              simp [h1, h2]
            rw [hbad]
            unfold toRangeFails Date.to_range
            rw [hy, hd, hm]
            simp [hk, Bind.bind, Except.bind]
          · intro r hr
            unfold Date.to_range at hr
            rw [hy, hd, hm] at hr
            simp only [hk, Bind.bind, Except.bind] at hr
            cases hr
            exact ⟨y, rfl, rfl, k, rfl, fun _ => hk, fun dd hdd => nomatch hdd⟩
    | some dd =>
      constructor
      · unfold toRangeFails Date.to_range
        rw [hy, hd]
        cases hm : d.month with
        | none => simp
        | some m => simp
      · intro r hr
        unfold Date.to_range at hr
        rw [hy, hd] at hr
        cases hm : d.month with
        | none =>
          rw [hm] at hr
          cases hr
          refine ⟨y, rfl, rfl, dd, rfl, fun hnone => ?_, fun dd2 h => ?_⟩
          · exact absurd hnone (by simp)
          · cases h; rfl
        | some m =>
          rw [hm] at hr
          cases hr
          refine ⟨y, rfl, rfl, dd, rfl, fun hnone => ?_, fun dd2 h => ?_⟩
          · exact absurd hnone (by simp)
          · cases h; rfl

/-- Witness for the amended C10: February of a leap year. -/
theorem to_range_amended_witness :
    toRangeFails ⟨some 2000, some 2, none, false⟩
        = ((some (2000 : Int)).isNone || ((none : Option Int).isNone && badMonth ⟨some 2000, some 2, none, false⟩))
    ∧ ∃ y, (some (2000 : Int)) = some y
        ∧ (some (Date.mk (some 2000) (some 2) (some 1) false)) = some ⟨some y, some 2, some 1, false⟩
        ∧ ∃ de, (some (Date.mk (some 2000) (some 2) (some 29) false)) = some ⟨some y, some 2, some de, false⟩
          ∧ ((none : Option Int) = none → monthrange1 y 2 = .ok de)
          ∧ (∀ dd, (none : Option Int) = some dd → de = dd) := by
  constructor
  · exact (to_range_amended ⟨some 2000, some 2, none, false⟩).1
  · exact (to_range_amended ⟨some 2000, some 2, none, false⟩).2
      ⟨some ⟨some 2000, some 2, some 1, false⟩, some ⟨some 2000, some 2, some 29, false⟩, false, false⟩ rfl

/-! ### Order facts on lexicographic triples -/

theorem lexLe_iff (p q : Int × Int × Int) : lexLe p q = true ↔
    (p.1 < q.1 ∨ (p.1 = q.1 ∧ (p.2.1 < q.2.1 ∨ (p.2.1 = q.2.1 ∧ p.2.2 ≤ q.2.2)))) := by
  rcases p with ⟨a1, a2, a3⟩
  rcases q with ⟨b1, b2, b3⟩
  simp [lexLe, lexLt, Prod.ext_iff]
  omega

/-- Overlap of two well-formed closed intervals in a linear order reduces
to the two boundary comparisons; stated on the endpoint test the code
performs. -/
theorem interval_overlap_iff (p q u v : Int × Int × Int)
    (h1 : lexLe p q = true) (h2 : lexLe u v = true) :
    (((lexLe p u && lexLe u q) || (lexLe p v && lexLe v q))
        || ((lexLe u p && lexLe p v) || (lexLe u q && lexLe q v)))
      = (lexLe p v && lexLe u q) := by
  rcases p with ⟨a1, a2, a3⟩
  rcases q with ⟨b1, b2, b3⟩
  rcases u with ⟨c1, c2, c3⟩
  rcases v with ⟨d1, d2, d3⟩
  rw [lexLe_iff] at h1 h2
  rw [Bool.eq_iff_iff]
  simp only [Bool.or_eq_true, Bool.and_eq_true, lexLe_iff]
  dsimp only at h1 h2 ⊢
  omega

/-- Overlap of the interval with a left-open candidate. -/
theorem halfopen_left_iff (p q u : Int × Int × Int) (h : lexLe p q = true) :
    ((lexLe u p : Bool) || lexLe u q) = lexLe u q := by
  rcases p with ⟨a1, a2, a3⟩
  rcases q with ⟨b1, b2, b3⟩
  rcases u with ⟨c1, c2, c3⟩
  rw [lexLe_iff] at h
  rw [Bool.eq_iff_iff]
  simp only [Bool.or_eq_true, lexLe_iff]
  dsimp only at h ⊢
  omega

/-- Overlap of the interval with a right-open candidate. -/
theorem halfopen_right_iff (p q v : Int × Int × Int) (h : lexLe p q = true) :
    ((lexLe p v : Bool) || lexLe q v) = lexLe p v := by
  rcases p with ⟨a1, a2, a3⟩
  rcases q with ⟨b1, b2, b3⟩
  rcases v with ⟨d1, d2, d3⟩
  rw [lexLe_iff] at h
  rw [Bool.eq_iff_iff]
  simp only [Bool.or_eq_true, lexLe_iff]
  dsimp only at h ⊢
  omega

theorem Date.comparable_of_complete (d : Date) (h : d.complete = true) : d.comparable = true := by
  unfold Date.complete at h
  unfold Date.comparable
  simp only [Bool.and_eq_true] at h
  exact h.1.1

/-! ### Step lemmas for the comparison interpreter -/

theorem run_dateCmp_complete (n : Nat) (op : CmpOp) (a b : Date)
    (ha : a.complete = true) (hb : b.complete = true) :
    run (n + 1) (.dateCmp op a (.date b)) = .ok (some (applyOp op (triple a) (triple b))) := by
  simp only [run]
  rw [Date.comparable_of_complete a ha, Date.comparable_of_complete b hb, ha, hb]
  simp

theorem run_binOp_date (n : Nat) (op : CmpOp) (a b : Date) (v : Bool)
    (h : run n (.dateCmp op a (.date b)) = .ok (some v)) :
    run (n + 1) (.binOp op (.date a) (.date b)) = .ok (some v) := by
  simp only [run, dunderCall]
  rw [h]
  rfl

theorem run_binOpOpt_some (n : Nat) (op : CmpOp) (a b : Date) (V : Except Err (Option Bool))
    (h : run n (.binOp op (.date a) (.date b)) = V) :
    run (n + 1) (.binOpOpt op (some a) (some b)) = V := by
  simp only [run]
  exact h

/-- The composed fact: a comparison operator on two complete dates yields
the tuple comparison of their parts. -/
theorem run_op_complete (n : Nat) (op : CmpOp) (a b : Date)
    (ha : a.complete = true) (hb : b.complete = true) :
    run (n + 3) (.binOpOpt op (some a) (some b)) = .ok (some (applyOp op (triple a) (triple b))) :=
  run_binOpOpt_some (n + 2) op a b _
    (run_binOp_date (n + 1) op a b _ (run_dateCmp_complete n op a b ha hb))

theorem run_anyBetween_nil (n : Nat) (lo hi : Option Date) :
    run (n + 1) (.anyBetween lo hi []) = .ok (some false) := rfl

theorem run_anyBetween_one (n : Nat) (lo hi : Option Date) (x : Date) (b1 b2 : Bool)
    (h1 : run (n + 1) (.binOpOpt .le lo (some x)) = .ok (some b1))
    (h2 : run (n + 1) (.binOpOpt .le (some x) hi) = .ok (some b2)) :
    run (n + 2) (.anyBetween lo hi [x]) = .ok (some (b1 && b2)) := by
  show Bind.bind (run (n + 1) (.binOpOpt .le lo (some x))) _ = _
  rw [h1]
  cases b1 with
  | false =>
    show run (n + 1) (.anyBetween lo hi []) = _
    rw [run_anyBetween_nil n lo hi]
    simp
  | true =>
    show Bind.bind (run (n + 1) (.binOpOpt .le (some x) hi)) _ = _
    rw [h2]
    cases b2 with
    | false =>
      show run (n + 1) (.anyBetween lo hi []) = _
      rw [run_anyBetween_nil n lo hi]
      simp
    | true => rfl

theorem run_anyBetween_two (n : Nat) (lo hi : Option Date) (x1 x2 : Date) (p1 q1 v2 : Bool)
    (h1 : run (n + 2) (.binOpOpt .le lo (some x1)) = .ok (some p1))
    (h2 : run (n + 2) (.binOpOpt .le (some x1) hi) = .ok (some q1))
    (h3 : run (n + 2) (.anyBetween lo hi [x2]) = .ok (some v2)) :
    run (n + 3) (.anyBetween lo hi [x1, x2]) = .ok (some ((p1 && q1) || v2)) := by
  show Bind.bind (run (n + 2) (.binOpOpt .le lo (some x1))) _ = _
  rw [h1]
  cases p1 with
  | false =>
    show run (n + 2) (.anyBetween lo hi [x2]) = _
    rw [h3]
    simp
  | true =>
    show Bind.bind (run (n + 2) (.binOpOpt .le (some x1) hi)) _ = _
    rw [h2]
    cases q1 with
    | false =>
      show run (n + 2) (.anyBetween lo hi [x2]) = _
      rw [h3]
      simp
    | true => rfl

theorem exceptOkBind {ε α β : Type} (v : α) (f : α → Except ε β) :
    (Except.ok v : Except ε α) >>= f = f v := rfl

theorem exceptPure {ε α : Type} (v : α) : (pure v : Except ε α) = Except.ok v := rfl

theorem run_contains_date (n : Nat) (s e d : Date) (bs be : Bool) (v : Bool)
    (hcs : s.comparable = true)
    (hany : run n (.anyBetween (some s) (some e) [d]) = .ok (some v)) :
    run (n + 1) (.contains ⟨some s, some e, bs, be⟩ (.date d)) = .ok (some v) := by
  simp [run, DateRange.comparable, hcs, hany]

theorem run_contains_range_bounded (n : Nat) (s e c dd : Date) (bs be b3 b4 : Bool) (P Q : Bool)
    (hcs : s.comparable = true) (hcc : c.comparable = true) (hcdd : dd.comparable = true)
    (h1 : run n (.anyBetween (some s) (some e) [c, dd]) = .ok (some P))
    (h2 : run n (.anyBetween (some c) (some dd) [s, e]) = .ok (some Q)) :
    run (n + 1) (.contains ⟨some s, some e, bs, be⟩ (.range ⟨some c, some dd, b3, b4⟩))
      = .ok (some (P || Q)) := by
  cases P with
  | true => simp [run, DateRange.comparable, hcs, hcc, hcdd, h1, exceptOkBind, exceptPure]
  | false => simp [run, DateRange.comparable, hcs, hcc, hcdd, h1, h2, exceptOkBind]

theorem run_contains_range_startonly (n : Nat) (s e c : Date) (bs be b3 b4 : Bool) (u1 u2 : Bool)
    (hcs : s.comparable = true) (hcc : c.comparable = true)
    (h1 : run n (.binOpOpt .ge (some s) (some c)) = .ok (some u1))
    (h2 : run n (.binOpOpt .ge (some e) (some c)) = .ok (some u2)) :
    run (n + 1) (.contains ⟨some s, some e, bs, be⟩ (.range ⟨some c, none, b3, b4⟩))
      = .ok (some (u1 || u2)) := by
  cases u1 with
  | true => simp [run, DateRange.comparable, hcs, hcc, h1, exceptOkBind, exceptPure]
  | false => simp [run, DateRange.comparable, hcs, hcc, h1, h2, exceptOkBind]

theorem run_contains_range_endonly (n : Nat) (s e dd : Date) (bs be b3 b4 : Bool) (u1 u2 : Bool)
    (hcs : s.comparable = true) (hcdd : dd.comparable = true)
    (h1 : run n (.binOpOpt .le (some s) (some dd)) = .ok (some u1))
    (h2 : run n (.binOpOpt .le (some e) (some dd)) = .ok (some u2)) :
    run (n + 1) (.contains ⟨some s, some e, bs, be⟩ (.range ⟨none, some dd, b3, b4⟩))
      = .ok (some (u1 || u2)) := by
  cases u1 with
  | true => simp [run, DateRange.comparable, hcs, hcdd, h1, exceptOkBind, exceptPure]
  | false => simp [run, DateRange.comparable, hcs, hcdd, h1, h2, exceptOkBind]

theorem run_contains_open_start (n : Nat) (s c : Date) (bs be b3 b4 : Bool)
    (hcs : s.comparable = true) (hcc : c.comparable = true) :
    run (n + 1) (.contains ⟨some s, none, bs, be⟩ (.range ⟨some c, none, b3, b4⟩))
      = .ok (some true) := by
  simp [run, DateRange.comparable, hcs, hcc]

theorem run_contains_open_end (n : Nat) (e dd : Date) (bs be b3 b4 : Bool)
    (hce : e.comparable = true) (hcdd : dd.comparable = true) :
    run (n + 1) (.contains ⟨none, some e, bs, be⟩ (.range ⟨none, some dd, b3, b4⟩))
      = .ok (some true) := by
  simp [run, DateRange.comparable, hce, hcdd]

theorem pyContains_of_run (r : DateRange) (y : Datey) (b : Bool)
    (h : run pyFuel (.contains r y) = .ok (some b)) : pyContains r y = .ok b := by
  unfold pyContains
  rw [h]

/-- The scope restriction of the bounded-containment equivalence: every
bound the candidate carries is a complete date, at least one bound is
present, and a doubly bounded candidate is well formed. -/
def completeCandidate : Datey → Bool
  | .date d => d.complete
  | .range ⟨some c, some dd, _, _⟩ => c.complete && dd.complete && lexLe (triple c) (triple dd)
  | .range ⟨some c, none, _, _⟩ => c.complete
  | .range ⟨none, some dd, _, _⟩ => dd.complete
  | .range ⟨none, none, _, _⟩ => false

/-- The specification side of the containment claim: the candidate
intersects the closed interval from s to e, in the lexicographic order of
complete dates. -/
def specIntersects (s e : Date) : Datey → Bool
  | .date d => lexLe (triple s) (triple d) && lexLe (triple d) (triple e)
  | .range ⟨some c, some dd, _, _⟩ => lexLe (triple s) (triple dd) && lexLe (triple c) (triple e)
  | .range ⟨some c, none, _, _⟩ => lexLe (triple c) (triple e)
  | .range ⟨none, some dd, _, _⟩ => lexLe (triple s) (triple dd)
  | .range ⟨none, none, _, _⟩ => false

/-- C8, counterexample.  Two open-ended ranges that each lack one
comparable boundary, but on opposite sides: the range from 1990 onward and
the range up to 1980.  The claim says containment reports overlap
unconditionally for every such pair; the code reports no overlap. -/
theorem mixed_open_ranges_counterexample :
    pyContains ⟨some ⟨some 1990, some 1, some 1, false⟩, none, false, false⟩
      (.range ⟨none, some ⟨some 1980, some 1, some 1, false⟩, false, false⟩) = .ok false := by
  decide

/-- C8, amended.  Two open-ended ranges missing the same boundary (both
start-only, or both end-only) overlap unconditionally; a mixed open-ended
pair is instead decided by a boundary comparison.  A fully bounded range
with complete, ordered bounds contains a candidate carrying complete dates
if and only if the candidate intersects the closed interval between the
bounds. -/
theorem containment_overlap_amended :
    (∀ (s c : Date) (b1 b2 b3 b4 : Bool), s.comparable = true → c.comparable = true →
      pyContains ⟨some s, none, b1, b2⟩ (.range ⟨some c, none, b3, b4⟩) = .ok true)
    ∧ (∀ (e dd : Date) (b1 b2 b3 b4 : Bool), e.comparable = true → dd.comparable = true →
      pyContains ⟨none, some e, b1, b2⟩ (.range ⟨none, some dd, b3, b4⟩) = .ok true)
    ∧ (∀ (s e : Date) (b1 b2 : Bool) (y : Datey), s.complete = true → e.complete = true →
      lexLe (triple s) (triple e) = true → completeCandidate y = true →
      pyContains ⟨some s, some e, b1, b2⟩ y = .ok (specIntersects s e y)) := by
  refine ⟨?_, ?_, ?_⟩
  · intro s c b1 b2 b3 b4 hcs hcc
    exact pyContains_of_run _ _ _ (run_contains_open_start 63 s c b1 b2 b3 b4 hcs hcc)
  · intro e dd b1 b2 b3 b4 hce hcdd
    exact pyContains_of_run _ _ _ (run_contains_open_end 63 e dd b1 b2 b3 b4 hce hcdd)
  · intro s e b1 b2 y hs he hse hy
    have hcs := Date.comparable_of_complete s hs
    have hce := Date.comparable_of_complete e he
    cases y with
    | date d =>
      have hd : d.complete = true := by simpa [completeCandidate] using hy
      apply pyContains_of_run
      exact run_contains_date 63 s e d b1 b2 _ hcs
        (run_anyBetween_one 61 (some s) (some e) d _ _
          (run_op_complete 59 .le s d hs hd) (run_op_complete 59 .le d e hd he))
    | range o =>
      rcases o with ⟨os, oe, b3, b4⟩
      cases os with
      | some c =>
        cases oe with
        | some dd =>
          have hcands : (c.complete && dd.complete && lexLe (triple c) (triple dd)) = true := by
            simpa [completeCandidate] using hy
          simp only [Bool.and_eq_true] at hcands
          obtain ⟨⟨hc, hdd⟩, hcdle⟩ := hcands
          have hcc := Date.comparable_of_complete c hc
          have hcd2 := Date.comparable_of_complete dd hdd
          apply pyContains_of_run
          have hA := run_anyBetween_two 60 (some s) (some e) c dd _ _ _
            (run_op_complete 59 .le s c hs hc) (run_op_complete 59 .le c e hc he)
            (run_anyBetween_one 60 (some s) (some e) dd _ _
              (run_op_complete 58 .le s dd hs hdd) (run_op_complete 58 .le dd e hdd he))
          have hB := run_anyBetween_two 60 (some c) (some dd) s e _ _ _
            (run_op_complete 59 .le c s hc hs) (run_op_complete 59 .le s dd hs hdd)
            (run_anyBetween_one 60 (some c) (some dd) e _ _
              (run_op_complete 58 .le c e hc he) (run_op_complete 58 .le e dd he hdd))
          have hrun := run_contains_range_bounded 63 s e c dd b1 b2 b3 b4 _ _ hcs hcc hcd2 hA hB
          refine hrun.trans ?_
          simp only [applyOp]
          rw [interval_overlap_iff (triple s) (triple e) (triple c) (triple dd) hse hcdle]
          rfl
        | none =>
          have hc : c.complete = true := by simpa [completeCandidate] using hy
          have hcc := Date.comparable_of_complete c hc
          apply pyContains_of_run
          have hrun := run_contains_range_startonly 63 s e c b1 b2 b3 b4 _ _ hcs hcc
            (run_op_complete 60 .ge s c hs hc) (run_op_complete 60 .ge e c he hc)
          refine hrun.trans ?_
          simp only [applyOp]
          rw [halfopen_left_iff (triple s) (triple e) (triple c) hse]
          rfl
      | none =>
        cases oe with
        | some dd =>
          have hdd : dd.complete = true := by simpa [completeCandidate] using hy
          have hcd2 := Date.comparable_of_complete dd hdd
          apply pyContains_of_run
          have hrun := run_contains_range_endonly 63 s e dd b1 b2 b3 b4 _ _ hcs hcd2
            (run_op_complete 60 .le s dd hs hdd) (run_op_complete 60 .le e dd he hdd)
          refine hrun.trans ?_
          simp only [applyOp]
          rw [halfopen_right_iff (triple s) (triple e) (triple dd) hse]
          rfl
        | none => simp [completeCandidate] at hy

/-- Witness for the amended C8: the round-trip containment scenario and a
same-sided open-ended pair. -/
theorem containment_overlap_amended_witness :
    Date.complete ⟨some 1970, some 1, some 1, false⟩ = true
    ∧ pyContains
        ⟨some ⟨some 1970, some 1, some 1, false⟩, some ⟨some 1999, some 12, some 31, false⟩, false, false⟩
        (.date ⟨some 1985, some 6, some 1, false⟩)
        = .ok (specIntersects ⟨some 1970, some 1, some 1, false⟩ ⟨some 1999, some 12, some 31, false⟩
            (.date ⟨some 1985, some 6, some 1, false⟩))
    ∧ pyContains ⟨some ⟨some 1990, some 1, some 1, false⟩, none, false, false⟩
        (.range ⟨some ⟨some 1800, some 1, some 1, false⟩, none, false, false⟩) = .ok true :=
  ⟨by decide,
    containment_overlap_amended.2.2 ⟨some 1970, some 1, some 1, false⟩
      ⟨some 1999, some 12, some 31, false⟩ false false (.date ⟨some 1985, some 6, some 1, false⟩)
      (by decide) (by decide) (by decide) (by decide),
    containment_overlap_amended.1 ⟨some 1990, some 1, some 1, false⟩
      ⟨some 1800, some 1, some 1, false⟩ false false false false (by decide) (by decide)⟩

end Betty
